import Mathlib

/-!
Verification of the DeCLUTR span sampler
(`t2t/data/dataset_readers/dataset_utils/contrastive_utils.py`) and of the
construction / forward-output contract of `ContrastiveTextEncoder`
(`t2t/models/contrastive_text_encoder.py`).

The sampler is embedded shallowly: the document is the (externally
tokenized) list of tokens, Python's `random.randint` / `random.choice` /
`np.random.beta` are modelled by an explicit randomness oracle
(rational beta draws plus natural-number entropy for the discrete picks),
and every place where the Python code can raise becomes an `Except`.
-/

namespace DeCLUTR

/-- The ways `sample_anchor_positives` can raise: the three input-validation
`ValueError`s, `random.randint` on an empty range, and `random.choice` on an
empty list. -/
inductive SampleError
  | tooShort
  | minGtMax
  | maxGtNumTokens
  | randintEmpty
  | choiceEmpty
deriving DecidableEq, Repr

/-- Python `int(q)` on a rational: truncation toward zero. -/
def pyInt (q : ℚ) : ℤ := if q < 0 then ⌈q⌉ else ⌊q⌋

/-- Python `random.randint(a, b)`: raises `ValueError` when `b < a`, otherwise
returns a value in `[a, b]`; the choice is driven by the entropy `u`. -/
def pyRandint (a b : ℤ) (u : ℕ) : Except SampleError ℤ :=
  if b < a then .error .randintEmpty
  else .ok (a + (u : ℤ) % (b - a + 1))

/-- Python `random.choice(xs)`: raises `IndexError` on an empty list, otherwise
returns an element; the choice is driven by the entropy `u`. -/
def pyChoice (xs : List ℤ) (u : ℕ) : Except SampleError ℤ :=
  if xs.isEmpty then .error .choiceEmpty
  else .ok (xs.getD (u % xs.length) 0)

/-- Python slice `xs[a : b]` (for the index ranges arising here, with the
usual Python clamping of out-of-range bounds). -/
def pySlice (xs : List String) (a b : ℤ) : List String :=
  let n : ℤ := xs.length
  let lo : ℤ := if a < 0 then max (n + a) 0 else min a n
  let hi : ℤ := if b < 0 then max (n + b) 0 else min b n
  (xs.drop lo.toNat).take (hi - lo).toNat

/-- Python `" ".join(xs)`. -/
def joinSpaces : List String → String
  | [] => ""
  | [x] => x
  | x :: y :: rest => x ++ " " ++ joinSpaces (y :: rest)

/-- Randomness consumed while sampling the anchor: the `np.random.beta(4, 2)`
draw and the entropy of the `randint` that picks `anchor_start`. -/
structure AnchorDraws where
  lenR : ℚ
  startU : ℕ
deriving DecidableEq, Repr

/-- Randomness consumed by one positive: the `np.random.beta(2, 4)` length
draw, the second `np.random.beta(2, 4)` draw used by the adjacent branch,
and the entropy of the `randint`/`choice` that picks `positive_start`. -/
structure PosDraws where
  lenR : ℚ
  redrawR : ℚ
  startU : ℕ
deriving DecidableEq, Repr

/-- `np.random.beta` draws lie in the open unit interval. -/
def AnchorDraws.valid (d : AnchorDraws) : Prop :=
  0 ≤ d.lenR ∧ d.lenR < 1

instance : DecidablePred AnchorDraws.valid := fun d =>
  inferInstanceAs (Decidable (0 ≤ d.lenR ∧ d.lenR < 1))

def PosDraws.valid (d : PosDraws) : Prop :=
  0 ≤ d.lenR ∧ d.lenR < 1 ∧ 0 ≤ d.redrawR ∧ d.redrawR < 1

instance : DecidablePred PosDraws.valid := fun d =>
  inferInstanceAs (Decidable (0 ≤ d.lenR ∧ d.lenR < 1 ∧ 0 ≤ d.redrawR ∧ d.redrawR < 1))

/-- `int(beta_draw * (hi - lo) + lo)`: the span-length computation used for
the anchor (Beta(4,2)), the positives (Beta(2,4)) and the adjacent redraw. -/
def drawLen (r : ℚ) (lo hi : ℤ) : ℤ :=
  pyInt (r * ((hi : ℚ) - (lo : ℚ)) + (lo : ℚ))

/-- `max_positive_len = min(max_span_len, max(anchor_start, num_tokens -
anchor_end))` (contrastive_utils.py line 86). -/
def maxPositiveLen (num_tokens max_span_len anchor_start anchor_end : ℤ) : ℤ :=
  min max_span_len (max anchor_start (num_tokens - anchor_end))

/-- One iteration of the positive-sampling loop of `sample_anchor_positives`
(contrastive_utils.py lines 75-117), returning the sampled token range
`(positive_start, positive_end)`. -/
def samplePositiveSpan (num_tokens max_span_len min_span_len : ℤ)
    (sampling_strategy : Option String) (anchor_start anchor_end : ℤ)
    (d : PosDraws) : Except SampleError (ℤ × ℤ) :=
  let positive_length := drawLen d.lenR min_span_len max_span_len
  if sampling_strategy = some "subsuming" then
    (pyRandint anchor_start (anchor_end - positive_length) d.startU).map
      (fun positive_start => (positive_start, positive_start + positive_length))
  else if sampling_strategy = some "adjacent" then
    -- The redraw on lines 96-98 is unconditional: the `if` on line 87 only
    -- guards the warning.
    let positive_length :=
      drawLen d.redrawR min_span_len
        (maxPositiveLen num_tokens max_span_len anchor_start anchor_end)
    let valid_starts : List ℤ :=
      (if anchor_start - positive_length > 0 then [anchor_start - positive_length] else [])
        ++ (if anchor_end + positive_length ≤ num_tokens then [anchor_end] else [])
    (pyChoice valid_starts d.startU).map
      (fun positive_start => (positive_start, positive_start + positive_length))
  else
    (pyRandint (max 0 (anchor_start - positive_length))
        (min anchor_end (num_tokens - positive_length)) d.startU).map
      (fun positive_start => (positive_start, positive_start + positive_length))

/-- The `for _ in range(num_spans)` loop, with one `PosDraws` per iteration
(`num_spans = ds.length`); spans are appended in sampling order. -/
def samplePositiveSpans (num_tokens max_span_len min_span_len : ℤ)
    (sampling_strategy : Option String) (anchor_start anchor_end : ℤ) :
    List PosDraws → Except SampleError (List (ℤ × ℤ))
  | [] => .ok []
  | d :: ds =>
    match samplePositiveSpan num_tokens max_span_len min_span_len
        sampling_strategy anchor_start anchor_end d with
    | .error e => .error e
    | .ok p =>
      match samplePositiveSpans num_tokens max_span_len min_span_len
          sampling_strategy anchor_start anchor_end ds with
      | .error e => .error e
      | .ok rest => .ok (p :: rest)

/-- `sample_anchor_positives`, instrumented to return the token ranges of the
anchor and of each positive (the string outputs are recovered from these
ranges by `sample_anchor_positives` below, exactly as the code joins
`tokens[start:end]`). `tokens` is the already-tokenized document. -/
def sampleSpans (tokens : List String) (max_span_len min_span_len : ℤ)
    (sampling_strategy : Option String) (ad : AnchorDraws) (ds : List PosDraws) :
    Except SampleError ((ℤ × ℤ) × List (ℤ × ℤ)) :=
  let num_tokens : ℤ := tokens.length
  if num_tokens < 10 then .error .tooShort
  else if min_span_len > max_span_len then .error .minGtMax
  else if max_span_len > num_tokens then .error .maxGtNumTokens
  else
    let anchor_length := drawLen ad.lenR min_span_len max_span_len
    match pyRandint 0 (num_tokens - anchor_length) ad.startU with
    | .error e => .error e
    | .ok anchor_start =>
      let anchor_end := anchor_start + anchor_length
      match samplePositiveSpans num_tokens max_span_len min_span_len
          sampling_strategy anchor_start anchor_end ds with
      | .error e => .error e
      | .ok positives => .ok ((anchor_start, anchor_end), positives)

/-- `sample_anchor_positives` proper: the anchor string and the positive
strings, in sampling order. -/
def sample_anchor_positives (tokens : List String) (max_span_len min_span_len : ℤ)
    (sampling_strategy : Option String) (ad : AnchorDraws) (ds : List PosDraws) :
    Except SampleError (String × List String) :=
  (sampleSpans tokens max_span_len min_span_len sampling_strategy ad ds).map
    (fun r => (joinSpaces (pySlice tokens r.1.1 r.1.2),
      r.2.map (fun p => joinSpaces (pySlice tokens p.1 p.2))))

/-! ### `ContrastiveTextEncoder` (contrastive_text_encoder.py) -/

/-- The configuration state of a constructed `ContrastiveTextEncoder` that the
claims depend on: whether a `feedforward` projection head, a contrastive
`loss`, and a `miner` were supplied, and whether the token embedder enables
masked language modeling. -/
structure EncoderConfig where
  hasFeedforward : Bool
  hasLoss : Bool
  hasMiner : Bool
  masked_language_modeling : Bool
deriving DecidableEq, Repr

/-- `ContrastiveTextEncoder.__init__` (lines 55-89): raises `ValueError` when
no contrastive loss is provided and masked language modeling is disabled;
otherwise construction succeeds with the given configuration. -/
def contrastiveTextEncoderInit (c : EncoderConfig) : Except String EncoderConfig :=
  if !c.hasLoss && !c.masked_language_modeling then
    .error "No loss function provided."
  else .ok c

/-- Which keys the `forward` output dictionary holds. -/
structure OutputKeys where
  embeddings : Bool
  projections : Bool
  loss : Bool
deriving DecidableEq, Repr

/-- The effect of `_forward_internal` (lines 160-183) on the output
dictionary: `useOutputDict` is whether `output_dict` was passed (the anchor
call passes it; the per-chunk positive calls do not). -/
def forwardInternalKeys (c : EncoderConfig) (training useOutputDict : Bool)
    (d : OutputKeys) : OutputKeys :=
  let d := if useOutputDict && !training then { d with embeddings := true } else d
  if c.hasFeedforward then
    if useOutputDict && !training then { d with projections := true } else d
  else d

/-- Which keys `forward` (lines 91-158) leaves in `output_dict`:
`hasPositives` is the truthiness of the `positives` argument. -/
def forwardKeys (c : EncoderConfig) (training hasPositives : Bool) : OutputKeys :=
  let d : OutputKeys := ⟨false, false, false⟩
  let d := forwardInternalKeys c training true d
  if training && hasPositives then { d with loss := true } else d

/-! ### Helper lemmas about the randomness primitives -/

lemma pyInt_of_nonneg {q : ℚ} (h : 0 ≤ q) : pyInt q = ⌊q⌋ := by
  simp [pyInt, not_lt.mpr h]

lemma drawLen_bounds {r : ℚ} {lo hi : ℤ} (hr0 : 0 ≤ r) (hr1 : r ≤ 1)
    (hlo : 0 ≤ lo) (hhi : 0 ≤ hi) :
    min lo hi ≤ drawLen r lo hi ∧ drawLen r lo hi ≤ max lo hi := by
  have hlo' : (0 : ℚ) ≤ (lo : ℚ) := by exact_mod_cast hlo
  have hhi' : (0 : ℚ) ≤ (hi : ℚ) := by exact_mod_cast hhi
  set v : ℚ := r * ((hi : ℚ) - (lo : ℚ)) + (lo : ℚ) with hv
  have hmin : ((min lo hi : ℤ) : ℚ) ≤ v := by
    rcases le_total (lo : ℚ) (hi : ℚ) with hc | hc
    · have : (0 : ℚ) ≤ r * ((hi : ℚ) - (lo : ℚ)) :=
        mul_nonneg hr0 (by linarith)
      have hlomin : (min lo hi : ℤ) ≤ lo := min_le_left _ _
      have : ((min lo hi : ℤ) : ℚ) ≤ (lo : ℚ) := by exact_mod_cast hlomin
      linarith
    · have h1 : r * ((hi : ℚ) - (lo : ℚ)) ≥ 1 * ((hi : ℚ) - (lo : ℚ)) := by
        have : (hi : ℚ) - (lo : ℚ) ≤ 0 := by linarith
        nlinarith
      have hhimin : (min lo hi : ℤ) ≤ hi := min_le_right _ _
      have : ((min lo hi : ℤ) : ℚ) ≤ (hi : ℚ) := by exact_mod_cast hhimin
      linarith
  have hmax : v ≤ ((max lo hi : ℤ) : ℚ) := by
    rcases le_total (lo : ℚ) (hi : ℚ) with hc | hc
    · have h1 : r * ((hi : ℚ) - (lo : ℚ)) ≤ 1 * ((hi : ℚ) - (lo : ℚ)) := by
        have : (0 : ℚ) ≤ (hi : ℚ) - (lo : ℚ) := by linarith
        nlinarith
      have hhimax : hi ≤ max lo hi := le_max_right _ _
      have : (hi : ℚ) ≤ ((max lo hi : ℤ) : ℚ) := by exact_mod_cast hhimax
      linarith
    · have h1 : r * ((hi : ℚ) - (lo : ℚ)) ≤ 0 :=
        mul_nonpos_of_nonneg_of_nonpos hr0 (by linarith)
      have hlomax : lo ≤ max lo hi := le_max_left _ _
      have : (lo : ℚ) ≤ ((max lo hi : ℤ) : ℚ) := by exact_mod_cast hlomax
      linarith
  have hv0 : (0 : ℚ) ≤ v := by
    have hminnn : (0 : ℤ) ≤ min lo hi := le_min hlo hhi
    have : ((0 : ℤ) : ℚ) ≤ ((min lo hi : ℤ) : ℚ) := by exact_mod_cast hminnn
    calc (0 : ℚ) = ((0 : ℤ) : ℚ) := by norm_num
    _ ≤ ((min lo hi : ℤ) : ℚ) := this
    _ ≤ v := hmin
  rw [drawLen, ← hv, pyInt_of_nonneg hv0]
  constructor
  · exact Int.le_floor.mpr hmin
  · calc ⌊v⌋ ≤ ⌊((max lo hi : ℤ) : ℚ)⌋ := Int.floor_le_floor hmax
      _ = max lo hi := Int.floor_intCast _

lemma pyRandint_ok_bounds {a b : ℤ} {u : ℕ} {v : ℤ}
    (h : pyRandint a b u = .ok v) : a ≤ v ∧ v ≤ b := by
  unfold pyRandint at h
  split at h
  · exact absurd h (by simp)
  · rename_i hba
    have hm : (0 : ℤ) < b - a + 1 := by omega
    have h0 : (0 : ℤ) ≤ (u : ℤ) % (b - a + 1) :=
      Int.emod_nonneg _ (by omega)
    have h1 : (u : ℤ) % (b - a + 1) < b - a + 1 := Int.emod_lt_of_pos _ hm
    have hv : v = a + (u : ℤ) % (b - a + 1) := by
      simpa using h.symm
    omega

lemma pyRandint_ok_of_le {a b : ℤ} (u : ℕ) (h : a ≤ b) :
    pyRandint a b u = .ok (a + (u : ℤ) % (b - a + 1)) := by
  simp [pyRandint, not_lt.mpr h]

lemma pyChoice_ok_mem {xs : List ℤ} {u : ℕ} {v : ℤ}
    (h : pyChoice xs u = .ok v) : v ∈ xs := by
  unfold pyChoice at h
  split at h
  · exact absurd h (by simp)
  · rename_i hne
    have hlen : 0 < xs.length := by
      cases xs with
      | nil => simp at hne
      | cons x xs => simp
    have hidx : u % xs.length < xs.length := Nat.mod_lt _ hlen
    have hv : v = xs.getD (u % xs.length) 0 := by simpa using h.symm
    rw [hv, List.getD_eq_getElem xs 0 hidx]
    exact List.getElem_mem hidx

lemma except_map_ok {ε α β : Type} {e : Except ε α} {f : α → β} {b : β}
    (h : e.map f = .ok b) : ∃ a, e = .ok a ∧ f a = b := by
  cases e with
  | error e => simp [Except.map] at h
  | ok a =>
    refine ⟨a, rfl, ?_⟩
    simpa [Except.map] using h

/-! ### Inversion lemmas for the three sampling strategies -/

lemma posSpan_subsuming_inv {nt maxL minL as ae : ℤ} {d : PosDraws} {p : ℤ × ℤ}
    (h : samplePositiveSpan nt maxL minL (some "subsuming") as ae d = .ok p) :
    as ≤ p.1 ∧ p.1 ≤ ae - drawLen d.lenR minL maxL ∧
      p.2 = p.1 + drawLen d.lenR minL maxL := by
  simp only [samplePositiveSpan, if_pos rfl] at h
  obtain ⟨v, hv, hfv⟩ := except_map_ok h
  obtain ⟨h1, h2⟩ := pyRandint_ok_bounds hv
  rw [← hfv]
  exact ⟨h1, h2, rfl⟩

lemma posSpan_adjacent_inv {nt maxL minL as ae : ℤ} {d : PosDraws} {p : ℤ × ℤ}
    (h : samplePositiveSpan nt maxL minL (some "adjacent") as ae d = .ok p) :
    p.2 = p.1 + drawLen d.redrawR minL (maxPositiveLen nt maxL as ae) ∧
      ((p.1 = as - drawLen d.redrawR minL (maxPositiveLen nt maxL as ae) ∧
          0 < as - drawLen d.redrawR minL (maxPositiveLen nt maxL as ae)) ∨
        (p.1 = ae ∧
          ae + drawLen d.redrawR minL (maxPositiveLen nt maxL as ae) ≤ nt)) := by
  rw [samplePositiveSpan, if_neg (by decide), if_pos rfl] at h
  obtain ⟨v, hv, hfv⟩ := except_map_ok h
  have hmem := pyChoice_ok_mem hv
  rw [← hfv]
  refine ⟨rfl, ?_⟩
  simp only [List.mem_append] at hmem
  rcases hmem with hm | hm
  · left
    by_cases hc : as - drawLen d.redrawR minL (maxPositiveLen nt maxL as ae) > 0
    · rw [if_pos hc] at hm
      simp at hm
      exact ⟨hm, hc⟩
    · rw [if_neg hc] at hm
      simp at hm
  · right
    by_cases hc : ae + drawLen d.redrawR minL (maxPositiveLen nt maxL as ae) ≤ nt
    · rw [if_pos hc] at hm
      simp at hm
      exact ⟨hm, hc⟩
    · rw [if_neg hc] at hm
      simp at hm

lemma posSpan_free_inv {nt maxL minL : ℤ} {strat : Option String} {as ae : ℤ}
    {d : PosDraws} {p : ℤ × ℤ}
    (hs1 : strat ≠ some "subsuming") (hs2 : strat ≠ some "adjacent")
    (h : samplePositiveSpan nt maxL minL strat as ae d = .ok p) :
    max 0 (as - drawLen d.lenR minL maxL) ≤ p.1 ∧
      p.1 ≤ min ae (nt - drawLen d.lenR minL maxL) ∧
      p.2 = p.1 + drawLen d.lenR minL maxL := by
  rw [samplePositiveSpan, if_neg hs1, if_neg hs2] at h
  obtain ⟨v, hv, hfv⟩ := except_map_ok h
  obtain ⟨h1, h2⟩ := pyRandint_ok_bounds hv
  rw [← hfv]
  exact ⟨h1, h2, rfl⟩

lemma posSpan_free_total {nt maxL minL as ae : ℤ} {d : PosDraws} {strat : Option String}
    (hs1 : strat ≠ some "subsuming") (hs2 : strat ≠ some "adjacent")
    (hmin : 0 < minL) (hminmax : minL ≤ maxL) (hmax : maxL ≤ nt)
    (has : 0 ≤ as) (haa : as ≤ ae) (hae : ae ≤ nt) (hd : d.valid) :
    ∃ p, samplePositiveSpan nt maxL minL strat as ae d = .ok p := by
  obtain ⟨hr0, hr1, _, _⟩ := hd
  obtain ⟨hL1, hL2⟩ := drawLen_bounds hr0 (le_of_lt hr1) (le_of_lt hmin)
    (le_trans (le_of_lt hmin) hminmax)
  rw [min_eq_left hminmax] at hL1
  rw [max_eq_right hminmax] at hL2
  rw [samplePositiveSpan, if_neg hs1, if_neg hs2]
  set L := drawLen d.lenR minL maxL with hLdef
  have hle : max 0 (as - L) ≤ min ae (nt - L) := by
    rw [max_le_iff, le_min_iff, le_min_iff]
    omega
  rw [pyRandint_ok_of_le _ hle]
  exact ⟨_, rfl⟩

/-- Any positive span produced by any strategy stays inside the document and
is non-reversed, given validated inputs, a well-placed anchor, and beta draws
in the unit interval. -/
lemma posSpan_ok_bounds {nt maxL minL : ℤ} {strat : Option String} {as ae : ℤ}
    {d : PosDraws} {p : ℤ × ℤ}
    (hmin : 0 < minL) (hminmax : minL ≤ maxL) (hmax : maxL ≤ nt)
    (has : 0 ≤ as) (haa : as ≤ ae) (hae : ae ≤ nt) (hd : d.valid)
    (h : samplePositiveSpan nt maxL minL strat as ae d = .ok p) :
    0 ≤ p.1 ∧ p.1 ≤ p.2 ∧ p.2 ≤ nt := by
  obtain ⟨hr0, hr1, hs0, hs1⟩ := hd
  have h0min : (0 : ℤ) ≤ minL := le_of_lt hmin
  have h0max : (0 : ℤ) ≤ maxL := le_trans h0min hminmax
  by_cases hsub : strat = some "subsuming"
  · subst hsub
    obtain ⟨h1, h2, h3⟩ := posSpan_subsuming_inv h
    obtain ⟨hL1, hL2⟩ := drawLen_bounds hr0 (le_of_lt hr1) h0min h0max
    rw [min_eq_left hminmax] at hL1
    omega
  · by_cases hadj : strat = some "adjacent"
    · subst hadj
      obtain ⟨h1, h2⟩ := posSpan_adjacent_inv h
      have hM : (0 : ℤ) ≤ maxPositiveLen nt maxL as ae := by
        rw [maxPositiveLen, le_min_iff, le_max_iff]
        omega
      obtain ⟨hL1, hL2⟩ := drawLen_bounds hs0 (le_of_lt hs1) h0min hM
      have hL0 : 0 ≤ drawLen d.redrawR minL (maxPositiveLen nt maxL as ae) :=
        le_trans (le_min h0min hM) hL1
      rcases h2 with ⟨hp1, hgt⟩ | ⟨hp1, hle⟩ <;> omega
    · obtain ⟨h1, h2, h3⟩ := posSpan_free_inv hsub hadj h
      obtain ⟨hL1, hL2⟩ := drawLen_bounds hr0 (le_of_lt hr1) h0min h0max
      rw [min_eq_left hminmax] at hL1
      rw [max_le_iff] at h1
      rw [le_min_iff] at h2
      omega

/-! ### Lemmas about the positive-sampling loop -/

lemma samplePositiveSpans_ok_length {nt maxL minL : ℤ} {strat : Option String}
    {as ae : ℤ} {ds : List PosDraws} {ps : List (ℤ × ℤ)}
    (h : samplePositiveSpans nt maxL minL strat as ae ds = .ok ps) :
    ps.length = ds.length := by
  induction ds generalizing ps with
  | nil =>
    simp only [samplePositiveSpans] at h
    cases h
    rfl
  | cons d ds ih =>
    rw [samplePositiveSpans] at h
    cases hd : samplePositiveSpan nt maxL minL strat as ae d with
    | error e => rw [hd] at h; exact absurd h (by simp)
    | ok p =>
      rw [hd] at h
      cases hrest : samplePositiveSpans nt maxL minL strat as ae ds with
      | error e => rw [hrest] at h; exact absurd h (by simp)
      | ok rest =>
        rw [hrest] at h
        cases h
        simp [ih hrest]

lemma samplePositiveSpans_ok_get {nt maxL minL : ℤ} {strat : Option String}
    {as ae : ℤ} {ds : List PosDraws} {ps : List (ℤ × ℤ)}
    (h : samplePositiveSpans nt maxL minL strat as ae ds = .ok ps) :
    ∀ i (h1 : i < ds.length) (h2 : i < ps.length),
      samplePositiveSpan nt maxL minL strat as ae (ds.get ⟨i, h1⟩) =
        .ok (ps.get ⟨i, h2⟩) := by
  induction ds generalizing ps with
  | nil => intro i h1; exact absurd h1 (by simp)
  | cons d ds ih =>
    rw [samplePositiveSpans] at h
    cases hd : samplePositiveSpan nt maxL minL strat as ae d with
    | error e => rw [hd] at h; exact absurd h (by simp)
    | ok p =>
      rw [hd] at h
      cases hrest : samplePositiveSpans nt maxL minL strat as ae ds with
      | error e => rw [hrest] at h; exact absurd h (by simp)
      | ok rest =>
        rw [hrest] at h
        cases h
        intro i h1 h2
        match i with
        | 0 => exact hd
        | Nat.succ j =>
          exact ih hrest j (by simpa using h1) (by simpa using h2)

lemma samplePositiveSpans_ok_mem {nt maxL minL : ℤ} {strat : Option String}
    {as ae : ℤ} {ds : List PosDraws} {ps : List (ℤ × ℤ)}
    (h : samplePositiveSpans nt maxL minL strat as ae ds = .ok ps) :
    ∀ p ∈ ps, ∃ d ∈ ds, samplePositiveSpan nt maxL minL strat as ae d = .ok p := by
  intro p hp
  obtain ⟨⟨i, hi⟩, hget⟩ := List.mem_iff_get.mp hp
  have hlen := samplePositiveSpans_ok_length h
  have h1 : i < ds.length := by omega
  refine ⟨ds.get ⟨i, h1⟩, List.get_mem _ _ h1, ?_⟩
  rw [samplePositiveSpans_ok_get h i h1 hi, hget]

lemma samplePositiveSpans_total {nt maxL minL : ℤ} {strat : Option String}
    {as ae : ℤ} {ds : List PosDraws}
    (h : ∀ d ∈ ds, ∃ p, samplePositiveSpan nt maxL minL strat as ae d = .ok p) :
    ∃ ps, samplePositiveSpans nt maxL minL strat as ae ds = .ok ps := by
  induction ds with
  | nil => exact ⟨[], rfl⟩
  | cons d ds ih =>
    obtain ⟨p, hp⟩ := h d (by simp)
    obtain ⟨ps, hps⟩ := ih (fun d' hd' => h d' (by simp [hd']))
    refine ⟨p :: ps, ?_⟩
    rw [samplePositiveSpans, hp, hps]

/-! ### Inversion and totality for the whole sampler -/

/-- Whenever `sampleSpans` succeeds, validation passed, the anchor is
well-placed inside the document, and the positives come from the loop. -/
lemma sampleSpans_ok_inv {tokens : List String} {maxL minL : ℤ}
    {strat : Option String} {ad : AnchorDraws} {ds : List PosDraws}
    {a : ℤ × ℤ} {ps : List (ℤ × ℤ)}
    (h : sampleSpans tokens maxL minL strat ad ds = .ok (a, ps)) :
    10 ≤ (tokens.length : ℤ) ∧ minL ≤ maxL ∧ maxL ≤ (tokens.length : ℤ) ∧
      0 ≤ a.1 ∧ a.2 = a.1 + drawLen ad.lenR minL maxL ∧
      a.2 ≤ (tokens.length : ℤ) ∧
      samplePositiveSpans (tokens.length : ℤ) maxL minL strat a.1 a.2 ds =
        .ok ps := by
  rw [sampleSpans] at h
  split at h
  · exact absurd h (by simp)
  · split at h
    · exact absurd h (by simp)
    · split at h
      · exact absurd h (by simp)
      · rename_i h10 hmm hmn
        dsimp only at h
        cases hA : pyRandint 0 ((tokens.length : ℤ) - drawLen ad.lenR minL maxL)
            ad.startU with
        | error e => rw [hA] at h; exact absurd h (by simp)
        | ok v =>
          rw [hA] at h
          dsimp only at h
          obtain ⟨hv0, hv1⟩ := pyRandint_ok_bounds hA
          cases hP : samplePositiveSpans (tokens.length : ℤ) maxL minL strat v
              (v + drawLen ad.lenR minL maxL) ds with
          | error e => rw [hP] at h; exact absurd h (by simp)
          | ok lst =>
            rw [hP] at h
            dsimp only at h
            cases h
            exact ⟨by omega, by omega, by omega, hv0, rfl, by omega, hP⟩

/-- With validated inputs and in-range beta draws, the default (free)
strategy never raises. -/
lemma sampleSpans_free_total {tokens : List String} {maxL minL : ℤ}
    {ad : AnchorDraws} {ds : List PosDraws}
    (hmin : 0 < minL) (hminmax : minL ≤ maxL)
    (hmax : maxL ≤ (tokens.length : ℤ)) (h10 : 10 ≤ (tokens.length : ℤ))
    (had : ad.valid) (hds : ∀ d ∈ ds, d.valid) :
    ∃ a ps, sampleSpans tokens maxL minL none ad ds = .ok (a, ps) := by
  obtain ⟨hr0, hr1⟩ := had
  have h0min : (0 : ℤ) ≤ minL := le_of_lt hmin
  have h0max : (0 : ℤ) ≤ maxL := le_trans h0min hminmax
  obtain ⟨hL1, hL2⟩ := drawLen_bounds hr0 (le_of_lt hr1) h0min h0max
  rw [min_eq_left hminmax] at hL1
  rw [max_eq_right hminmax] at hL2
  set La := drawLen ad.lenR minL maxL with hLa
  have hanchor := pyRandint_ok_of_le (a := 0) (b := (tokens.length : ℤ) - La)
    ad.startU (by omega)
  set v : ℤ := 0 + (ad.startU : ℤ) % ((tokens.length : ℤ) - La - 0 + 1) with hvdef
  have hv0 : 0 ≤ v ∧ v ≤ (tokens.length : ℤ) - La := pyRandint_ok_bounds hanchor
  obtain ⟨ps, hps⟩ := @samplePositiveSpans_total (tokens.length : ℤ) maxL minL
    none v (v + La) ds
    (fun d hd => posSpan_free_total (by simp) (by simp) hmin hminmax hmax
      hv0.1 (by omega) (by omega) (hds d hd))
  refine ⟨(v, v + La), ps, ?_⟩
  rw [sampleSpans]
  rw [if_neg (by omega), if_neg (by omega), if_neg (by omega)]
  dsimp only
  rw [← hLa, hanchor]
  dsimp only
  rw [hps]

/-! ### Slicing and joining -/

lemma pySlice_length {xs : List String} {a b : ℤ} (ha : 0 ≤ a) (hab : a ≤ b)
    (hb : b ≤ (xs.length : ℤ)) :
    (pySlice xs a b).length = (b - a).toNat := by
  rw [pySlice]
  rw [if_neg (by omega : ¬a < 0), if_neg (by omega : ¬b < 0)]
  rw [min_eq_left (by omega : a ≤ (xs.length : ℤ)), min_eq_left hb]
  rw [List.length_take, List.length_drop]
  omega

lemma pySlice_subset {xs : List String} {a b : ℤ} :
    ∀ t ∈ pySlice xs a b, t ∈ xs := by
  intro t ht
  rw [pySlice] at ht
  exact List.mem_of_mem_drop (List.mem_of_mem_take ht)

lemma pySlice_full {xs : List String} :
    pySlice xs 0 (xs.length : ℤ) = xs := by
  rw [pySlice]
  rw [if_neg (by omega : ¬(0 : ℤ) < 0),
    if_neg (by omega : ¬(xs.length : ℤ) < 0), min_self,
    min_eq_left (by omega : (0 : ℤ) ≤ (xs.length : ℤ))]
  simp

lemma joinSpaces_ne_empty {xs : List String} (hne : xs ≠ [])
    (h : ∀ x ∈ xs, x ≠ "") : joinSpaces xs ≠ "" := by
  match xs with
  | [] => exact absurd rfl hne
  | [x] => exact h x (by simp)
  | x :: y :: rest =>
    rw [joinSpaces]
    intro hc
    have : (x ++ " " ++ joinSpaces (y :: rest)).length = 0 := by rw [hc]; rfl
    rw [String.length_append, String.length_append] at this
    have hsp : (" " : String).length = 1 := rfl
    omega

/-- The string-level result is the whitespace-join of the token slices of
the span-level result. -/
lemma sample_anchor_positives_eq {tokens : List String} {maxL minL : ℤ}
    {strat : Option String} {ad : AnchorDraws} {ds : List PosDraws}
    {a : ℤ × ℤ} {ps : List (ℤ × ℤ)}
    (h : sampleSpans tokens maxL minL strat ad ds = .ok (a, ps)) :
    sample_anchor_positives tokens maxL minL strat ad ds =
      .ok (joinSpaces (pySlice tokens a.1 a.2),
        ps.map (fun p => joinSpaces (pySlice tokens p.1 p.2))) := by
  rw [sample_anchor_positives, h]
  rfl

lemma sample_anchor_positives_error {tokens : List String} {maxL minL : ℤ}
    {strat : Option String} {ad : AnchorDraws} {ds : List PosDraws}
    {e : SampleError}
    (h : sampleSpans tokens maxL minL strat ad ds = .error e) :
    sample_anchor_positives tokens maxL minL strat ad ds = .error e := by
  rw [sample_anchor_positives, h]
  rfl

lemma drawLen_self (r : ℚ) (n : ℤ) : drawLen r n n = n := by
  rw [drawLen, sub_self, mul_zero, zero_add, pyInt]
  split
  · exact Int.ceil_intCast n
  · exact Int.floor_intCast n

/-- In the degenerate configuration `min = max = num_tokens = 10` the free
strategy always produces the full-document span. -/
lemma posSpan_degenerate (d : PosDraws) :
    samplePositiveSpan 10 10 10 none 0 10 d = .ok (0, 10) := by
  rw [samplePositiveSpan,
    if_neg (by simp : ¬(none : Option String) = some "subsuming"),
    if_neg (by simp : ¬(none : Option String) = some "adjacent"),
    drawLen_self]
  norm_num [pyRandint, Int.emod_one, Except.map]

lemma posSpans_degenerate (ds : List PosDraws) :
    samplePositiveSpans 10 10 10 none 0 10 ds = .ok (ds.map fun _ => (0, 10)) := by
  induction ds with
  | nil => rfl
  | cons d ds ih =>
    rw [samplePositiveSpans, posSpan_degenerate d, ih]
    rfl

/-! ### Claim theorems -/

/-- C5: every precondition violation raises a validation `ValueError` before
any span sampling occurs: a tokenized length below 10 raises `tooShort`
regardless of the other arguments; with a long enough document,
`min_span_len > max_span_len` raises `minGtMax`; with consistent span
lengths, `max_span_len` above the tokenized length raises `maxGtNumTokens`;
and any violation raises one of these three validation errors (never a
sampling-stage error), independently of the random draws. -/
theorem spanSampler_validation (tokens : List String)
    (max_span_len min_span_len : ℤ) (strat : Option String)
    (ad : AnchorDraws) (ds : List PosDraws) :
    ((tokens.length : ℤ) < 10 →
      sample_anchor_positives tokens max_span_len min_span_len strat ad ds =
        .error .tooShort)
    ∧ (10 ≤ (tokens.length : ℤ) → max_span_len < min_span_len →
      sample_anchor_positives tokens max_span_len min_span_len strat ad ds =
        .error .minGtMax)
    ∧ (10 ≤ (tokens.length : ℤ) → min_span_len ≤ max_span_len →
      (tokens.length : ℤ) < max_span_len →
      sample_anchor_positives tokens max_span_len min_span_len strat ad ds =
        .error .maxGtNumTokens)
    ∧ ((tokens.length : ℤ) < 10 ∨ max_span_len < min_span_len ∨
        (tokens.length : ℤ) < max_span_len →
      sample_anchor_positives tokens max_span_len min_span_len strat ad ds =
          .error .tooShort ∨
        sample_anchor_positives tokens max_span_len min_span_len strat ad ds =
          .error .minGtMax ∨
        sample_anchor_positives tokens max_span_len min_span_len strat ad ds =
          .error .maxGtNumTokens) := by
  have h1 : (tokens.length : ℤ) < 10 →
      sample_anchor_positives tokens max_span_len min_span_len strat ad ds =
        .error .tooShort := by
    intro h
    apply sample_anchor_positives_error
    rw [sampleSpans, if_pos h]
  have h2 : 10 ≤ (tokens.length : ℤ) → max_span_len < min_span_len →
      sample_anchor_positives tokens max_span_len min_span_len strat ad ds =
        .error .minGtMax := by
    intro h10 hmm
    apply sample_anchor_positives_error
    rw [sampleSpans, if_neg (by omega), if_pos (by omega)]
  have h3 : 10 ≤ (tokens.length : ℤ) → min_span_len ≤ max_span_len →
      (tokens.length : ℤ) < max_span_len →
      sample_anchor_positives tokens max_span_len min_span_len strat ad ds =
        .error .maxGtNumTokens := by
    intro h10 hmm hmn
    apply sample_anchor_positives_error
    rw [sampleSpans, if_neg (by omega), if_neg (by omega), if_pos (by omega)]
  refine ⟨h1, h2, h3, ?_⟩
  intro hviol
  by_cases hlen : (tokens.length : ℤ) < 10
  · exact Or.inl (h1 hlen)
  · by_cases hmm : max_span_len < min_span_len
    · exact Or.inr (Or.inl (h2 (by omega) hmm))
    · refine Or.inr (Or.inr (h3 (by omega) (by omega) (by omega)))

/-- C5 witness: a 9-token document raises `tooShort`, and
`min_span_len = 5 > 3 = max_span_len` raises `minGtMax`. -/
theorem spanSampler_validation_witness :
    sample_anchor_positives (List.replicate 9 "w") 10 1 none ⟨1/2, 0⟩ [] =
      .error .tooShort
    ∧ sample_anchor_positives (List.replicate 12 "w") 3 5 none ⟨1/2, 0⟩ [] =
      .error .minGtMax :=
  ⟨(spanSampler_validation (List.replicate 9 "w") 10 1 none ⟨1/2, 0⟩ []).1
      (by norm_num),
    (spanSampler_validation (List.replicate 12 "w") 3 5 none ⟨1/2, 0⟩ []).2.1
      (by norm_num) (by norm_num)⟩

/-- C6: constructing a `ContrastiveTextEncoder` raises the configuration
`ValueError` exactly when no contrastive loss is supplied and masked
language modeling is disabled; otherwise construction succeeds. -/
theorem contrastiveTextEncoderInit_config_error (c : EncoderConfig) :
    ((∃ e, contrastiveTextEncoderInit c = .error e) ↔
      c.hasLoss = false ∧ c.masked_language_modeling = false)
    ∧ (contrastiveTextEncoderInit c = .ok c ↔
      (c.hasLoss = true ∨ c.masked_language_modeling = true)) := by
  obtain ⟨f, l, mi, m⟩ := c
  cases l <;> cases m <;> simp [contrastiveTextEncoderInit]

/-- C7: outside of training mode, `forward` never outputs `loss`, always
outputs `embeddings`, and outputs `projections` exactly when a feedforward
projection head is configured; in training mode it never outputs
`embeddings` or `projections`. -/
theorem forward_output_keys (c : EncoderConfig) (hasPositives : Bool) :
    (forwardKeys c false hasPositives).loss = false
    ∧ (forwardKeys c false hasPositives).embeddings = true
    ∧ (forwardKeys c false hasPositives).projections = c.hasFeedforward
    ∧ (forwardKeys c true hasPositives).embeddings = false
    ∧ (forwardKeys c true hasPositives).projections = false := by
  obtain ⟨f, l, mi, m⟩ := c
  cases f <;> cases hasPositives <;>
    simp [forwardKeys, forwardInternalKeys]

/-- C2: whenever sampling with `sampling_strategy == "subsuming"` returns,
every returned positive token range is contained in the anchor range:
`anchor_start ≤ positive_start` and `positive_end ≤ anchor_end`. -/
theorem subsuming_positives_subsumed {tokens : List String}
    {max_span_len min_span_len : ℤ} {ad : AnchorDraws} {ds : List PosDraws}
    {a : ℤ × ℤ} {ps : List (ℤ × ℤ)}
    (h : sampleSpans tokens max_span_len min_span_len (some "subsuming") ad ds =
      .ok (a, ps)) :
    ∀ p ∈ ps, a.1 ≤ p.1 ∧ p.2 ≤ a.2 := by
  obtain ⟨_, _, _, _, _, _, hps⟩ := sampleSpans_ok_inv h
  intro p hp
  obtain ⟨d, _, hpd⟩ := samplePositiveSpans_ok_mem hps p hp
  obtain ⟨h1, h2, h3⟩ := posSpan_subsuming_inv hpd
  exact ⟨h1, by omega⟩

/-- C2 witness: a concrete subsuming run with anchor `(0, 9)` and positive
`(2, 7)`. -/
theorem subsuming_positives_subsumed_witness :
    (0 : ℤ) ≤ 2 ∧ (7 : ℤ) ≤ 9 := by
  have h : sampleSpans (List.replicate 10 "w") 10 5 (some "subsuming")
      ⟨9/10, 0⟩ [⟨1/10, 1/2, 2⟩] = .ok ((0, 9), [(2, 7)]) := by
    norm_num [sampleSpans, samplePositiveSpans, samplePositiveSpan, pyRandint,
      pyChoice, drawLen, pyInt, maxPositiveLen, Except.map]
  exact subsuming_positives_subsumed h (2, 7) (by simp)

/-- C3: whenever sampling with `sampling_strategy == "adjacent"` returns,
every returned positive token range is disjoint from the anchor range and
borders it: `positive_end = anchor_start` or `positive_start = anchor_end`. -/
theorem adjacent_positives_border {tokens : List String}
    {max_span_len min_span_len : ℤ} {ad : AnchorDraws} {ds : List PosDraws}
    {a : ℤ × ℤ} {ps : List (ℤ × ℤ)}
    (h : sampleSpans tokens max_span_len min_span_len (some "adjacent") ad ds =
      .ok (a, ps)) :
    ∀ p ∈ ps, (p.2 ≤ a.1 ∨ a.2 ≤ p.1) ∧ (p.2 = a.1 ∨ p.1 = a.2) := by
  obtain ⟨_, _, _, _, _, _, hps⟩ := sampleSpans_ok_inv h
  intro p hp
  obtain ⟨d, _, hpd⟩ := samplePositiveSpans_ok_mem hps p hp
  obtain ⟨h1, h2⟩ := posSpan_adjacent_inv hpd
  rcases h2 with ⟨hp1, _⟩ | ⟨hp1, _⟩
  · exact ⟨Or.inl (by omega), Or.inl (by omega)⟩
  · exact ⟨Or.inr (by omega), Or.inr (by omega)⟩

/-- C3 witness: a concrete adjacent run with anchor `(1, 8)` and positive
`(8, 16)`, which starts exactly at the anchor's end. -/
theorem adjacent_positives_border_witness :
    ((16 : ℤ) ≤ 1 ∨ (8 : ℤ) ≤ 8) ∧ ((16 : ℤ) = 1 ∨ (8 : ℤ) = 8) := by
  have h : sampleSpans (List.replicate 20 "w") 10 5 (some "adjacent")
      ⟨2/5, 1⟩ [⟨1/5, 3/5, 0⟩] = .ok ((1, 8), [(8, 16)]) := by
    norm_num [sampleSpans, samplePositiveSpans, samplePositiveSpan, pyRandint,
      pyChoice, drawLen, pyInt, maxPositiveLen, Except.map,
      eq_false (by decide : ¬("adjacent" = "subsuming"))]
  exact adjacent_positives_border h (8, 16) (by simp)

/-- C9: for any document of exactly 10 tokens with
`min_span_len = max_span_len = 10` under the default (free) strategy,
sampling never raises and the anchor covers the entire document
(`anchor_start = 0`, `anchor_end = num_tokens`), whatever the draws. -/
theorem boundary_full_doc_anchor {tokens : List String} (h : tokens.length = 10)
    (ad : AnchorDraws) (ds : List PosDraws) :
    sampleSpans tokens 10 10 none ad ds =
      .ok ((0, 10), ds.map (fun _ => (0, 10)))
    ∧ sample_anchor_positives tokens 10 10 none ad ds =
      .ok (joinSpaces tokens, ds.map (fun _ => joinSpaces tokens)) := by
  have hnt : (tokens.length : ℤ) = 10 := by rw [h]; norm_num
  have h1 : sampleSpans tokens 10 10 none ad ds =
      .ok ((0, 10), ds.map (fun _ => (0, 10))) := by
    rw [sampleSpans, hnt]
    rw [if_neg (by norm_num), if_neg (by norm_num), if_neg (by norm_num)]
    dsimp only
    rw [drawLen_self, show (10 : ℤ) - 10 = 0 by norm_num,
      pyRandint_ok_of_le _ (le_refl 0),
      show (0 : ℤ) - 0 + 1 = 1 by norm_num, Int.emod_one, add_zero]
    dsimp only
    rw [zero_add, posSpans_degenerate]
  have hslice : pySlice tokens 0 10 = tokens := by
    rw [← hnt]
    exact pySlice_full
  refine ⟨h1, ?_⟩
  rw [sample_anchor_positives_eq h1]
  dsimp only
  rw [List.map_map]
  simp [Function.comp_def, hslice]

/-- C9 witness: the concrete 10-token boundary run. -/
theorem boundary_full_doc_anchor_witness :
    sampleSpans (List.replicate 10 "w") 10 10 none ⟨1/2, 0⟩ [⟨1/2, 1/2, 0⟩] =
      .ok ((0, 10), [(0, 10)]) :=
  (boundary_full_doc_anchor (by simp) ⟨1/2, 0⟩ [⟨1/2, 1/2, 0⟩]).1

/-- C10: under the default (free) strategy, for validated inputs and beta
draws in the unit interval, `sampleSpans` never raises; moreover for every
successful result the free-strategy `randint` bounds are always ordered
(`max(0, anchor_start - L) ≤ min(anchor_end, num_tokens - L)` for every
admissible positive length `L`), and every positive range lies inside
`[0, num_tokens)`. -/
theorem free_strategy_never_fails (tokens : List String)
    (max_span_len min_span_len : ℤ) (ad : AnchorDraws) (ds : List PosDraws)
    (hmin : 0 < min_span_len) (hminmax : min_span_len ≤ max_span_len)
    (hmax : max_span_len ≤ (tokens.length : ℤ))
    (h10 : 10 ≤ (tokens.length : ℤ))
    (had : ad.valid) (hds : ∀ d ∈ ds, d.valid) :
    (∀ e, sampleSpans tokens max_span_len min_span_len none ad ds ≠ .error e)
    ∧ ∀ a ps,
        sampleSpans tokens max_span_len min_span_len none ad ds = .ok (a, ps) →
        (∀ L, min_span_len ≤ L → L ≤ max_span_len →
          max 0 (a.1 - L) ≤ min a.2 ((tokens.length : ℤ) - L))
        ∧ ∀ p ∈ ps, 0 ≤ p.1 ∧ p.1 ≤ p.2 ∧ p.2 ≤ (tokens.length : ℤ) := by
  constructor
  · obtain ⟨a, ps, hok⟩ :=
      sampleSpans_free_total hmin hminmax hmax h10 had hds
    intro e hc
    rw [hok] at hc
    exact Except.noConfusion hc
  · intro a ps h
    obtain ⟨_, _, _, ha1, ha2, ha3, hps⟩ := sampleSpans_ok_inv h
    obtain ⟨hr0, hr1⟩ := had
    obtain ⟨hL1, hL2⟩ := @drawLen_bounds ad.lenR min_span_len max_span_len
      hr0 (le_of_lt hr1) (le_of_lt hmin) (by omega)
    rw [min_eq_left hminmax] at hL1
    rw [max_eq_right hminmax] at hL2
    have haa : a.1 ≤ a.2 := by omega
    constructor
    · intro L hL hL'
      rw [max_le_iff, le_min_iff, le_min_iff]
      omega
    · intro p hp
      obtain ⟨d, hd, hpd⟩ := samplePositiveSpans_ok_mem hps p hp
      exact posSpan_ok_bounds hmin hminmax hmax ha1 haa (by omega)
        (hds d hd) hpd

/-- C10 witness: on a concrete validated input the free-strategy call is not
an error. -/
theorem free_strategy_never_fails_witness :
    sampleSpans (List.replicate 10 "w") 10 5 none ⟨1/2, 1⟩ [⟨1/2, 1/2, 4⟩] ≠
      .error .choiceEmpty :=
  (free_strategy_never_fails (List.replicate 10 "w") 10 5 ⟨1/2, 1⟩
      [⟨1/2, 1/2, 4⟩] (by norm_num) (by norm_num) (by norm_num) (by norm_num)
      (by constructor <;> norm_num)
      (by
        intro d hd
        simp only [List.mem_singleton] at hd
        subst hd
        refine ⟨by norm_num, by norm_num, by norm_num, by norm_num⟩)).1
    .choiceEmpty

/-- C1 counterexample: on a valid input (10 tokens, `min_span_len = 5`,
`max_span_len = 10`, draws inside the unit interval) with the subsuming
strategy, `sample_anchor_positives` raises (the anchor is shorter than the
drawn positive length, so `randint` gets an empty range) instead of
returning an anchor with positives. -/
theorem sampler_can_raise_on_valid_input :
    10 ≤ ((List.replicate 10 "w").length : ℤ)
    ∧ (0 : ℤ) < 5 ∧ (5 : ℤ) ≤ 10
    ∧ (10 : ℤ) ≤ ((List.replicate 10 "w").length : ℤ)
    ∧ AnchorDraws.valid ⟨1/10, 0⟩ ∧ PosDraws.valid ⟨9/10, 1/2, 0⟩
    ∧ sample_anchor_positives (List.replicate 10 "w") 10 5 (some "subsuming")
        ⟨1/10, 0⟩ [⟨9/10, 1/2, 0⟩] = .error .randintEmpty := by
  refine ⟨by norm_num, by norm_num, by norm_num, by norm_num,
    ⟨by norm_num, by norm_num⟩,
    ⟨by norm_num, by norm_num, by norm_num, by norm_num⟩, ?_⟩
  norm_num [sample_anchor_positives, sampleSpans, samplePositiveSpans,
    samplePositiveSpan, pyRandint, pyChoice, drawLen, pyInt, maxPositiveLen,
    Except.map]

/-- C1 (amended): whenever `sample_anchor_positives` returns on a valid
input with unit-interval draws, it returns one anchor string and exactly
`num_spans = ds.length` positive strings in sampling order (the `i`-th
positive arises from the `i`-th draw), each positive a whitespace-joined
slice of the document's tokens whose range lies within `[0, num_tokens]`;
under the non-adjacent strategies every positive is additionally non-empty
(positive spans under `adjacent` may be empty). -/
theorem sampler_ok_shape {tokens : List String} {max_span_len min_span_len : ℤ}
    {strat : Option String} {ad : AnchorDraws} {ds : List PosDraws}
    {a : ℤ × ℤ} {ps : List (ℤ × ℤ)}
    (hmin : 0 < min_span_len) (had : ad.valid) (hds : ∀ d ∈ ds, d.valid)
    (h : sampleSpans tokens max_span_len min_span_len strat ad ds = .ok (a, ps)) :
    sample_anchor_positives tokens max_span_len min_span_len strat ad ds =
      .ok (joinSpaces (pySlice tokens a.1 a.2),
        ps.map (fun p => joinSpaces (pySlice tokens p.1 p.2)))
    ∧ ps.length = ds.length
    ∧ (∀ i (h1 : i < ds.length) (h2 : i < ps.length),
        samplePositiveSpan (tokens.length : ℤ) max_span_len min_span_len strat
          a.1 a.2 (ds.get ⟨i, h1⟩) = .ok (ps.get ⟨i, h2⟩))
    ∧ (∀ p ∈ ps, 0 ≤ p.1 ∧ p.1 ≤ p.2 ∧ p.2 ≤ (tokens.length : ℤ))
    ∧ (strat ≠ some "adjacent" → (∀ t ∈ tokens, t ≠ "") →
        ∀ p ∈ ps, joinSpaces (pySlice tokens p.1 p.2) ≠ "") := by
  obtain ⟨h10, hminmax, hmax, ha1, ha2, ha3, hps⟩ := sampleSpans_ok_inv h
  obtain ⟨hr0, hr1⟩ := had
  obtain ⟨hLa1, hLa2⟩ := @drawLen_bounds ad.lenR min_span_len max_span_len hr0
    (le_of_lt hr1) (le_of_lt hmin) (by omega)
  rw [min_eq_left hminmax] at hLa1
  rw [max_eq_right hminmax] at hLa2
  have haa : a.1 ≤ a.2 := by omega
  have hbounds : ∀ p ∈ ps, 0 ≤ p.1 ∧ p.1 ≤ p.2 ∧ p.2 ≤ (tokens.length : ℤ) := by
    intro p hp
    obtain ⟨d, hd, hpd⟩ := samplePositiveSpans_ok_mem hps p hp
    exact posSpan_ok_bounds hmin hminmax hmax ha1 haa (by omega) (hds d hd) hpd
  refine ⟨sample_anchor_positives_eq h, samplePositiveSpans_ok_length hps,
    fun i h1 h2 => samplePositiveSpans_ok_get hps i h1 h2, hbounds, ?_⟩
  intro hnotadj htok p hp
  obtain ⟨d, hd, hpd⟩ := samplePositiveSpans_ok_mem hps p hp
  obtain ⟨hp0, hp12, hpn⟩ := hbounds p hp
  have hlen : p.1 < p.2 := by
    obtain ⟨hdr0, hdr1, _, _⟩ := hds d hd
    obtain ⟨hL1, hL2⟩ := @drawLen_bounds d.lenR min_span_len max_span_len hdr0
      (le_of_lt hdr1) (le_of_lt hmin) (by omega)
    rw [min_eq_left hminmax] at hL1
    by_cases hsub : strat = some "subsuming"
    · subst hsub
      obtain ⟨g1, g2, g3⟩ := posSpan_subsuming_inv hpd
      omega
    · obtain ⟨g1, g2, g3⟩ := posSpan_free_inv hsub hnotadj hpd
      omega
  have hslice_len : (pySlice tokens p.1 p.2).length = (p.2 - p.1).toNat :=
    pySlice_length hp0 (by omega) hpn
  have hne : pySlice tokens p.1 p.2 ≠ [] := by
    intro hc
    rw [hc] at hslice_len
    simp at hslice_len
    omega
  exact joinSpaces_ne_empty hne (fun t ht => htok t (pySlice_subset t ht))

/-- C1 (amended) witness: the positive `(3, 8)` of a concrete subsuming run
lies within the 10-token document. -/
theorem sampler_ok_shape_witness :
    (0 : ℤ) ≤ 3 ∧ (3 : ℤ) ≤ 8 ∧
      (8 : ℤ) ≤ ((List.replicate 10 "w").length : ℤ) := by
  have h : sampleSpans (List.replicate 10 "w") 10 5 (some "subsuming")
      ⟨9/10, 0⟩ [⟨1/10, 1/2, 3⟩] = .ok ((0, 9), [(3, 8)]) := by
    norm_num [sampleSpans, samplePositiveSpans, samplePositiveSpan, pyRandint,
      pyChoice, drawLen, pyInt, maxPositiveLen, Except.map]
  exact (sampler_ok_shape (by norm_num) ⟨by norm_num, by norm_num⟩
    (by
      intro d hd
      simp only [List.mem_singleton] at hd
      subst hd
      exact ⟨by norm_num, by norm_num, by norm_num, by norm_num⟩)
    h).2.2.2.1 (3, 8) (by simp)

/-- C8 counterexample: with 20 tokens, `min_span_len = 5`,
`max_span_len = 10`, the adjacent run draws an original positive length of 6,
which does not exceed `max_positive_len = 10`, yet the returned positive
`(6, 14)` has length 8: the original length was not used unchanged, because
the redraw is unconditional. -/
theorem adjacent_redraw_counterexample :
    drawLen (1/5) 5 10 = 6
    ∧ (6 : ℤ) ≤ maxPositiveLen 20 10 0 6
    ∧ sampleSpans (List.replicate 20 "w") 10 5 (some "adjacent") ⟨1/5, 0⟩
        [⟨1/5, 3/5, 0⟩] = .ok ((0, 6), [(6, 14)])
    ∧ (14 : ℤ) - 6 ≠ drawLen (1/5) 5 10 := by
  have h1 : drawLen (1/5) 5 10 = 6 := by norm_num [drawLen, pyInt]
  refine ⟨h1, by norm_num [maxPositiveLen], ?_, by rw [h1]; norm_num⟩
  norm_num [sampleSpans, samplePositiveSpans, samplePositiveSpan, pyRandint,
    pyChoice, drawLen, pyInt, maxPositiveLen, Except.map,
    eq_false (by decide : ¬("adjacent" = "subsuming"))]

/-- C8 (amended): under the adjacent strategy the length of every returned
positive equals the redrawn length
`int(Beta(2,4) * (max_positive_len - min_span_len) + min_span_len)`
computed from that positive's redraw, regardless of the originally drawn
length; only the warning is conditional on the original length exceeding
`max_positive_len`. -/
theorem adjacent_length_always_redrawn {tokens : List String}
    {max_span_len min_span_len : ℤ} {ad : AnchorDraws} {ds : List PosDraws}
    {a : ℤ × ℤ} {ps : List (ℤ × ℤ)}
    (h : sampleSpans tokens max_span_len min_span_len (some "adjacent") ad ds =
      .ok (a, ps)) :
    ps.length = ds.length
    ∧ ∀ i (h1 : i < ds.length) (h2 : i < ps.length),
        (ps.get ⟨i, h2⟩).2 - (ps.get ⟨i, h2⟩).1 =
          drawLen (ds.get ⟨i, h1⟩).redrawR min_span_len
            (maxPositiveLen (tokens.length : ℤ) max_span_len a.1 a.2) := by
  obtain ⟨_, _, _, _, _, _, hps⟩ := sampleSpans_ok_inv h
  refine ⟨samplePositiveSpans_ok_length hps, ?_⟩
  intro i h1 h2
  obtain ⟨g1, _⟩ := posSpan_adjacent_inv (samplePositiveSpans_ok_get hps i h1 h2)
  omega

/-- C8 (amended) witness: in the concrete run the returned positive's length
`14 - 6 = 8` equals the redrawn length for redraw `3/5`. -/
theorem adjacent_length_always_redrawn_witness :
    (14 : ℤ) - 6 = drawLen (3/5) 5
      (maxPositiveLen ((List.replicate 20 "w").length : ℤ) 10 0 6) := by
  have h : sampleSpans (List.replicate 20 "w") 10 5 (some "adjacent") ⟨1/5, 0⟩
      [⟨1/5, 3/5, 0⟩] = .ok ((0, 6), [(6, 14)]) := by
    norm_num [sampleSpans, samplePositiveSpans, samplePositiveSpan, pyRandint,
      pyChoice, drawLen, pyInt, maxPositiveLen, Except.map,
      eq_false (by decide : ¬("adjacent" = "subsuming"))]
  exact (adjacent_length_always_redrawn h).2 0 (by decide) (by decide)

/-- C4: the documented guarantee fails — on the valid input of 10 tokens
with `min_span_len = max_span_len = 10` under the adjacent strategy, the
anchor covers the whole document, both candidate starts are invalid even
after the redraw (any positive redrawn length `0 < L ≤ 9` fits neither
side), and `random.choice` is called on an empty list: the set of valid
starts is empty and the pick fails. -/
theorem adjacent_choice_can_fail :
    (0 : ℤ) < 10 ∧ (10 : ℤ) ≤ 10
    ∧ (10 : ℤ) ≤ ((List.replicate 10 "w").length : ℤ)
    ∧ AnchorDraws.valid ⟨1/2, 0⟩ ∧ PosDraws.valid ⟨1/2, 1/2, 0⟩
    ∧ sampleSpans (List.replicate 10 "w") 10 10 (some "adjacent") ⟨1/2, 0⟩
        [⟨1/2, 1/2, 0⟩] = .error .choiceEmpty := by
  refine ⟨by norm_num, by norm_num, by norm_num, ⟨by norm_num, by norm_num⟩,
    ⟨by norm_num, by norm_num, by norm_num, by norm_num⟩, ?_⟩
  norm_num [sampleSpans, samplePositiveSpans, samplePositiveSpan, pyRandint,
    pyChoice, drawLen, pyInt, maxPositiveLen, Except.map,
    eq_false (by decide : ¬("adjacent" = "subsuming"))]

end DeCLUTR

